import Mathlib

/-!
Verification development for `scripts/extract_instructions.py`.

The script is embedded shallowly:

* Python strings are modelled as Lean `String` (a wrapper around `List Char`);
  the text-processing primitives (`str.strip`, `str.split`, `str.splitlines`,
  slicing) are re-implemented over `List Char`, with line boundaries modelled
  as the LF character and whitespace as `Char.isWhitespace` (the ASCII
  whitespace characters relevant to this repository's inputs).
* The two external collaborators are oracles passed in as function arguments:
  `parse : String → Option String` stands for BeautifulSoup
  (`some t` = parsing succeeded and `t` is the visible text that remains after
  the script/style elements have been decomposed; `none` = the parser raised),
  and `call_copilot_api : String → Option String` stands for the remote
  completion call (`some m` = the first candidate's text; `none` = any caught
  failure: missing credential, network error, zero candidates).
* The filesystem loop of `process_pages_directory` is modelled on the list of
  discovered input files, a read that raises being `none`; its result is the
  list of (path, contents) pairs that get written.
-/

namespace ExtractInstructions

/-! ### Python string primitives over `List Char` -/

/-- Python `str.split(sep)` for a single-character separator: split at every
occurrence of `sep`, keeping empty pieces (`''.split(c) == ['']`). -/
def splitOnChar (sep : Char) : List Char → List (List Char)
  | [] => [[]]
  | c :: rest =>
    if c = sep then [] :: splitOnChar sep rest
    else
      match splitOnChar sep rest with
      | h :: t => (c :: h) :: t
      | [] => [[c]]

/-- Inverse of `splitOnChar`: interleave the separator between the pieces. -/
def joinWithChar (sep : Char) : List (List Char) → List Char
  | [] => []
  | [x] => x
  | x :: rest => x ++ sep :: joinWithChar sep rest

/-- Drop the longest suffix of characters satisfying `p`. -/
def dropWhileEnd (p : Char → Bool) : List Char → List Char
  | [] => []
  | c :: t =>
    match dropWhileEnd p t with
    | [] => if p c then [] else [c]
    | r => c :: r

/-- Python `str.strip()`: remove leading and trailing whitespace. -/
def stripChars (l : List Char) : List Char :=
  dropWhileEnd Char.isWhitespace (l.dropWhile Char.isWhitespace)

/-- Python `str.splitlines()` (line boundaries modelled as LF): like splitting
on LF, but a trailing line break produces no final empty line and the empty
string has no lines. -/
def splitlinesChars (l : List Char) : List (List Char) :=
  if l = [] then []
  else if l.getLast? = some '\n' then (splitOnChar '\n' l).dropLast
  else splitOnChar '\n' l

/-- Python `line.split("  ")`: split at every non-overlapping occurrence of two
consecutive spaces, scanning left to right, keeping empty pieces. -/
def splitOnTwoSpaces : List Char → List (List Char)
  | [] => [[]]
  | [c] => [[c]]
  | c1 :: c2 :: rest =>
    if c1 = ' ' ∧ c2 = ' ' then [] :: splitOnTwoSpaces rest
    else
      match splitOnTwoSpaces (c2 :: rest) with
      | h :: t => (c1 :: h) :: t
      | [] => [[c1]]

/-- Python `pat in s` (substring containment). -/
def containsPat (pat : List Char) : List Char → Bool
  | [] => pat.isEmpty
  | c :: rest => pat.isPrefixOf (c :: rest) || containsPat pat rest

/-- Fuel-driven worker for `splitOnList`; the fuel is an upper bound on the
number of characters still to be scanned, so with fuel `l.length` it is never
exhausted (each step consumes at least one character and one unit of fuel). -/
def splitOnListF (pat : List Char) : Nat → List Char → List (List Char)
  | _, [] => [[]]
  | 0, l => [l]
  | Nat.succ f, c :: rest =>
    if pat.isPrefixOf (c :: rest) && !pat.isEmpty then
      [] :: splitOnListF pat f ((c :: rest).drop pat.length)
    else
      match splitOnListF pat f rest with
      | h :: t => (c :: h) :: t
      | [] => [[c]]

/-- Python `s.split(pat)` for a non-empty multi-character separator:
split at every non-overlapping occurrence of `pat`, scanning left to right,
keeping empty pieces. -/
def splitOnList (pat : List Char) (l : List Char) : List (List Char) :=
  splitOnListF pat l.length l

/-- Python slicing `s[:n]` (by code points). -/
def pyTake (s : String) (n : Nat) : String :=
  ⟨s.data.take n⟩

/-! ### The embedded program -/

/-- The whitespace clean-up chunks of `extract_text_from_html`
(`extract_instructions.py` lines 76-79): strip every line of the parser's
text, split each stripped line at double spaces, strip every resulting
phrase, and keep the non-empty chunks. -/
def cleanupChunks (t : List Char) : List (List Char) :=
  ((((splitlinesChars t).map stripChars).map
      (fun line => (splitOnTwoSpaces line).map stripChars)).flatten).filter
    (fun c => !c.isEmpty)

/-- Model of `extract_text_from_html` (lines 60-83). `parse` is the BeautifulSoup
oracle: `some t` is the visible text of the soup after the script and style
elements are decomposed, `none` means the parser raised; in the latter case
the `except` branch returns the raw input unchanged. -/
def extract_text_from_html (parse : String → Option String) (html_content : String) : String :=
  match parse html_content with
  | some text => String.mk (joinWithChar '\n' (cleanupChunks text.data))
  | none => html_content

/-- The prompt f-string of `extract_instructions_from_html` (lines 105-116). -/
def build_prompt (version text_preview : String) : String :=
  "Extract clear, actionable GitHub Copilot instructions from this content. Format the output as markdown so that GitHub Copilot can consume.\n\nStructure your response as:\n1. A clear title (as # Markdown heading)\n2. Source page version: " ++
    version ++
    "\n3. Prerequisites section (if applicable)\n4. Step-by-step instructions (numbered list)\n5. Warnings or Important Notes (if applicable)\n6. Key Concepts (brief explanations of technical terms)\n\nContent to analyze:\n" ++
    text_preview ++
    "\n\nProvide ONLY the markdown output, no additional explanation."

/-- The prompt that `extract_instructions_from_html` sends to the remote
service for a given input: the extracted clean text is truncated to
1,000,000 characters (line 103) and substituted into the prompt template. -/
def prompt_for (parse : String → Option String) (html_content version : String) : String :=
  build_prompt version (pyTake (extract_text_from_html parse html_content) 1000000)

/-- The fixed markdown skeleton of `generate_markdown_template`
(lines 146-167) as a function of the chosen title. -/
def render_template (title version : String) : String :=
  "# " ++ title ++ "\n\nSource page version: " ++ version ++
    "\n\n## Prerequisites\n\n- Placeholder: Add prerequisites here\n\n## Instructions\n\n1. Step 1: Placeholder instruction\n2. Step 2: Placeholder instruction\n3. Step 3: Placeholder instruction\n\n## Important Notes\n\n⚠️ **Note:** This is a template. Replace with actual extracted instructions when Copilot API is integrated.\n\n## Key Concepts\n\n- **Concept 1**: Description placeholder\n- **Concept 2**: Description placeholder\n\n---\n*Generated instructions - Review and verify before using*\n"

/-- Model of `generate_markdown_template` (lines 127-168): keep the lines of
`text_content.split('\n')` whose stripped form is non-empty and longer than
10 characters, use the first such (unstripped) line as the title, defaulting
to `"Instructions"`, and emit the fixed markdown skeleton. -/
def generate_markdown_template (text_content : String) (version : String) : String :=
  let lines := (splitOnChar '\n' text_content.data).filter
    (fun l => !(stripChars l).isEmpty && decide (10 < (stripChars l).length))
  let title : List Char :=
    match lines with
    | [] => "Instructions".data
    | l :: _ => l
  render_template (String.mk title) version

/-- Model of `extract_instructions_from_html` (lines 86-124). `call_copilot_api` is the
remote-completion oracle (`none` = the call raised or returned zero
candidates, both caught inside `call_copilot_api` itself, lines 49-57).
The Python truthiness test `if markdown:` sends both `None` and the empty
string to the fallback template. -/
def extract_instructions_from_html (parse call_copilot_api : String → Option String)
    (html_content : String) (version : String) : String :=
  let clean_text := extract_text_from_html parse html_content
  let markdown := call_copilot_api (prompt_for parse html_content version)
  match markdown with
  | some m => if m = "" then generate_markdown_template clean_text version else m
  | none => generate_markdown_template clean_text version

/-- The version-marker literal `"<!-- Version:"`. -/
def versionMarker : List Char := "<!-- Version:".data

/-- The version extraction of `process_pages_directory` (lines 201-208):
the first line containing `<!-- Version:` determines the version — the text
after the marker, cut at the first `-->`, stripped; `"N/A"` when no line
contains the marker.  (`if version_line:` coincides with the `some` test
because a matched line contains the marker and hence is non-empty.) -/
def extractVersion (html_content : String) : String :=
  match (splitlinesChars html_content.data).find? (fun line => containsPat versionMarker line) with
  | none => "N/A"
  | some line =>
    String.mk (stripChars ((splitOnList "-->".data ((splitOnList versionMarker line).getD 1 [])).getD 0 []))

/-- One discovered `*.html` file: its stem (filename without extension) and
the result of reading it (`none` models a read that raises). -/
structure InputFile where
  stem : String
  content : Option String

/-- The body of the per-file loop of `process_pages_directory`
(lines 193-222): a file whose read raises produces no output (the `except`
branch just continues); otherwise the version is extracted, the instructions
are generated, and one file named `<stem>_instructions.md` is written into
the output directory. -/
def processOneFile (parse call_copilot_api : String → Option String)
    (output_dir : String) (f : InputFile) : Option (String × String) :=
  match f.content with
  | none => none
  | some html_content =>
    let version := extractVersion html_content
    let markdown_instructions :=
      extract_instructions_from_html parse call_copilot_api html_content version
    some (output_dir ++ "/" ++ f.stem ++ "_instructions.md", markdown_instructions)

/-- Model of `process_pages_directory` (lines 171-222) on the list of discovered
files: the written outputs, in discovery order. -/
def process_pages_directory (parse call_copilot_api : String → Option String)
    (output_dir : String) (files : List InputFile) : List (String × String) :=
  files.filterMap (processOneFile parse call_copilot_api output_dir)

/-! ### Spec-side definitions

These follow the specification's wording, for comparison with the
definitions above, which are translated from the source. -/

/-- Spec wording of the clean-up, per line: strip the line, split it on
double-space sequences, strip each fragment, discard the empty fragments. -/
def spec_line_fragments (line : List Char) : List (List Char) :=
  ((splitOnTwoSpaces (stripChars line)).map stripChars).filter (fun c => !c.isEmpty)

/-- Spec wording of the whitespace clean-up of the Text Extractor: process
each line independently and join all resulting fragments with single
newline separators. -/
def spec_clean_text (t : List Char) : List Char :=
  joinWithChar '\n' (((splitlinesChars t).map spec_line_fragments).flatten)

/-- The title-selection rule of `generate_markdown_template` phrased as a
direct search: the first line whose stripped form is non-empty and longer
than 10 characters, defaulting to the literal `"Instructions"`. -/
def spec_title (text_content : String) : String :=
  String.mk (((splitOnChar '\n' text_content.data).find?
      (fun l => !(stripChars l).isEmpty && decide (10 < (stripChars l).length))).getD
    "Instructions".data)

/-- The title-selection rule exactly as claimed: the first non-blank line
that is itself longer than 10 characters (length measured on the raw line,
not on its stripped form). -/
def claimed_title (text_content : String) : String :=
  String.mk (((splitOnChar '\n' text_content.data).find?
      (fun l => !(stripChars l).isEmpty && decide (10 < l.length))).getD
    "Instructions".data)

/-! ### Lemmas about the string primitives -/

theorem splitOnChar_ne_nil (sep : Char) (l : List Char) : splitOnChar sep l ≠ [] := by
  induction l with
  | nil => simp [splitOnChar]
  | cons c rest ih =>
    simp only [splitOnChar]
    split
    · simp
    · cases h : splitOnChar sep rest with
      | nil => simp
      | cons a t => simp

theorem not_mem_of_mem_splitOnChar {sep : Char} :
    ∀ {l piece : List Char}, piece ∈ splitOnChar sep l → sep ∉ piece := by
  intro l
  induction l with
  | nil =>
    intro piece hp
    simp [splitOnChar] at hp
    simp [hp]
  | cons c rest ih =>
    intro piece hp
    simp only [splitOnChar] at hp
    by_cases hc : c = sep
    · rw [if_pos hc] at hp
      rcases List.mem_cons.mp hp with h | h
      · simp [h]
      · exact ih h
    · rw [if_neg hc] at hp
      cases hsp : splitOnChar sep rest with
      | nil => exact absurd hsp (splitOnChar_ne_nil sep rest)
      | cons a t =>
        rw [hsp] at hp
        rcases List.mem_cons.mp hp with h | h
        · subst h
          intro hm
          rcases List.mem_cons.mp hm with h' | h'
          · exact hc h'.symm
          · exact ih (hsp ▸ List.mem_cons_self a t) h'
        · exact ih (hsp ▸ List.mem_cons_of_mem a h)

theorem splitOnChar_of_not_mem {sep : Char} :
    ∀ {x : List Char}, sep ∉ x → splitOnChar sep x = [x] := by
  intro x
  induction x with
  | nil => intro _; rfl
  | cons c rest ih =>
    intro h
    have hc : ¬ c = sep := fun e => h (by simp [e])
    have hrest : sep ∉ rest := fun hm => h (List.mem_cons_of_mem _ hm)
    simp only [splitOnChar, if_neg hc, ih hrest]

theorem splitOnChar_append {sep : Char} (z : List Char) :
    ∀ {x : List Char}, sep ∉ x → splitOnChar sep (x ++ sep :: z) = x :: splitOnChar sep z := by
  intro x
  induction x with
  | nil => intro _; simp [splitOnChar]
  | cons c rest ih =>
    intro h
    have hc : ¬ c = sep := fun e => h (by simp [e])
    have hrest : sep ∉ rest := fun hm => h (List.mem_cons_of_mem _ hm)
    rw [List.cons_append]
    simp only [splitOnChar, if_neg hc]
    rw [ih hrest]

theorem splitOnChar_joinWithChar {sep : Char} :
    ∀ {parts : List (List Char)}, parts ≠ [] → (∀ x ∈ parts, sep ∉ x) →
      splitOnChar sep (joinWithChar sep parts) = parts
  | [], h, _ => absurd rfl h
  | [x], _, hx => by
    simp only [joinWithChar]
    exact splitOnChar_of_not_mem (hx x (by simp))
  | x :: y :: rest, _, hx => by
    have h1 : joinWithChar sep (x :: y :: rest) = x ++ sep :: joinWithChar sep (y :: rest) := rfl
    rw [h1, splitOnChar_append _ (hx x (by simp)),
      splitOnChar_joinWithChar (by simp) (fun z hz => hx z (List.mem_cons_of_mem _ hz))]

theorem getLast?_ne_of_not_mem {a : Char} {l : List Char} (h : a ∉ l) :
    l.getLast? ≠ some a := by
  intro hl
  obtain ⟨hne, he⟩ := List.mem_getLast?_eq_getLast (Option.mem_def.mpr hl)
  exact h (he ▸ List.getLast_mem hne)

theorem joinWithChar_ne_nil_getLast {sep : Char} :
    ∀ {parts : List (List Char)}, parts ≠ [] → (∀ x ∈ parts, x ≠ [] ∧ sep ∉ x) →
      joinWithChar sep parts ≠ [] ∧ (joinWithChar sep parts).getLast? ≠ some sep
  | [], h, _ => absurd rfl h
  | [x], _, hx => by
    simp only [joinWithChar]
    exact ⟨(hx x (by simp)).1, getLast?_ne_of_not_mem (hx x (by simp)).2⟩
  | x :: y :: rest, _, hx => by
    have hJ := @joinWithChar_ne_nil_getLast sep (y :: rest) (by simp)
      (fun z hz => hx z (List.mem_cons_of_mem _ hz))
    have h1 : joinWithChar sep (x :: y :: rest) = x ++ sep :: joinWithChar sep (y :: rest) := rfl
    constructor
    · rw [h1]; simp
    · rw [h1, List.getLast?_append_cons]
      cases hc : joinWithChar sep (y :: rest) with
      | nil => exact absurd hc hJ.1
      | cons a t =>
        rw [List.getLast?_cons_cons]
        rw [hc] at hJ
        exact hJ.2

theorem mem_of_mem_dropWhileEnd {p : Char → Bool} :
    ∀ {l : List Char} {a : Char}, a ∈ dropWhileEnd p l → a ∈ l := by
  intro l
  induction l with
  | nil => intro a h; simp [dropWhileEnd] at h
  | cons c t ih =>
    intro a h
    simp only [dropWhileEnd] at h
    cases hd : dropWhileEnd p t with
    | nil =>
      rw [hd] at h
      simp at h
      obtain ⟨-, rfl⟩ := h
      exact List.mem_cons_self _ _
    | cons r0 rt =>
      rw [hd] at h
      rcases List.mem_cons.mp h with h' | h'
      · simp [h']
      · exact List.mem_cons_of_mem _ (ih (hd ▸ h'))

theorem dropWhileEnd_head? {p : Char → Bool} :
    ∀ {l : List Char}, dropWhileEnd p l ≠ [] → (dropWhileEnd p l).head? = l.head? := by
  intro l
  cases l with
  | nil => intro h; simp [dropWhileEnd] at h
  | cons c t =>
    intro h
    simp only [dropWhileEnd] at h ⊢
    cases hd : dropWhileEnd p t with
    | nil =>
      rw [hd] at h
      by_cases hp : p c
      · exact absurd (by simp [hp]) h
      · simp [hp]
    | cons r0 rt => rfl

theorem dropWhileEnd_idem {p : Char → Bool} :
    ∀ l : List Char, dropWhileEnd p (dropWhileEnd p l) = dropWhileEnd p l := by
  intro l
  induction l with
  | nil => rfl
  | cons c t ih =>
    have hct : dropWhileEnd p (c :: t) =
        match dropWhileEnd p t with
        | [] => if p c = true then [] else [c]
        | r => c :: r := rfl
    cases hd : dropWhileEnd p t with
    | nil =>
      rw [hct, hd]
      by_cases hp : p c
      · simp [hp, dropWhileEnd]
      · simp [hp, dropWhileEnd]
    | cons r0 rt =>
      rw [hct, hd]
      show dropWhileEnd p (c :: r0 :: rt) = c :: r0 :: rt
      have hfix : dropWhileEnd p (r0 :: rt) = r0 :: rt := hd ▸ ih
      rw [show dropWhileEnd p (c :: r0 :: rt) =
          (match dropWhileEnd p (r0 :: rt) with
           | [] => if p c = true then [] else [c]
           | r => c :: r) from rfl, hfix]

theorem head?_dropWhile {p : Char → Bool} :
    ∀ {l : List Char} {c : Char}, (l.dropWhile p).head? = some c → p c = false := by
  intro l
  induction l with
  | nil => intro c h; simp [List.dropWhile] at h
  | cons a t ih =>
    intro c h
    rw [List.dropWhile_cons] at h
    split at h
    · exact ih h
    · simp at h
      subst h
      rename_i hpa
      simpa using hpa

theorem dropWhile_of_head? {p : Char → Bool} {l : List Char}
    (h : ∀ c, l.head? = some c → p c = false) : l.dropWhile p = l := by
  cases l with
  | nil => rfl
  | cons a t =>
    rw [List.dropWhile_cons, if_neg]
    simp [h a rfl]

theorem stripChars_idem (l : List Char) : stripChars (stripChars l) = stripChars l := by
  unfold stripChars
  have hB : (dropWhileEnd Char.isWhitespace (l.dropWhile Char.isWhitespace)).dropWhile
      Char.isWhitespace = dropWhileEnd Char.isWhitespace (l.dropWhile Char.isWhitespace) := by
    apply dropWhile_of_head?
    intro c hc
    by_cases hne : dropWhileEnd Char.isWhitespace (l.dropWhile Char.isWhitespace) = []
    · rw [hne] at hc; simp at hc
    · rw [dropWhileEnd_head? hne] at hc
      exact head?_dropWhile hc
  rw [hB, dropWhileEnd_idem]

theorem mem_of_mem_stripChars {l : List Char} {a : Char} (h : a ∈ stripChars l) : a ∈ l :=
  (List.dropWhile_suffix Char.isWhitespace).subset (mem_of_mem_dropWhileEnd h)

theorem subset_of_mem_splitOnTwoSpaces :
    ∀ {l piece : List Char}, piece ∈ splitOnTwoSpaces l → piece ⊆ l := by
  intro l
  induction l using splitOnTwoSpaces.induct with
  | case1 =>
    intro piece hp
    simp [splitOnTwoSpaces] at hp
    simp [hp]
  | case2 c =>
    intro piece hp
    simp [splitOnTwoSpaces] at hp
    simp [hp]
  | case3 c1 c2 rest hsp ih =>
    intro piece hp
    rw [show splitOnTwoSpaces (c1 :: c2 :: rest) = [] :: splitOnTwoSpaces rest by
      simp only [splitOnTwoSpaces, if_pos hsp]] at hp
    rcases List.mem_cons.mp hp with h | h
    · simp [h, List.nil_subset]
    · exact (ih h).trans (fun a ha => by simp [ha])
  | case4 c1 c2 rest hsp h t heq ih =>
    intro piece hp
    rw [show splitOnTwoSpaces (c1 :: c2 :: rest) = (c1 :: h) :: t by
      simp only [splitOnTwoSpaces, if_neg hsp, heq]] at hp
    rcases List.mem_cons.mp hp with h' | h'
    · subst h'
      intro a ha
      rcases List.mem_cons.mp ha with h'' | h''
      · simp [h'']
      · exact List.mem_cons_of_mem _ (ih (heq ▸ List.mem_cons_self h t) h'')
    · exact (ih (heq ▸ List.mem_cons_of_mem h h')).trans (List.subset_cons_self c1 (c2 :: rest))
  | case5 c1 c2 rest hsp heq ih =>
    intro piece hp
    rw [show splitOnTwoSpaces (c1 :: c2 :: rest) = [[c1]] by
      simp only [splitOnTwoSpaces, if_neg hsp, heq]] at hp
    simp at hp
    subst hp
    intro a ha
    simp at ha
    simp [ha]

theorem newline_not_mem_splitlinesChars {t line : List Char}
    (h : line ∈ splitlinesChars t) : '\n' ∉ line := by
  unfold splitlinesChars at h
  split at h
  · simp at h
  · split at h
    · exact not_mem_of_mem_splitOnChar (List.mem_of_mem_dropLast h)
    · exact not_mem_of_mem_splitOnChar h

theorem filter_flatten_comm {α : Type} (p : α → Bool) :
    ∀ L : List (List α), (L.flatten).filter p = (L.map (fun l => l.filter p)).flatten := by
  intro L
  induction L with
  | nil => rfl
  | cons x xs ih => simp [List.filter_append, ih]

theorem head?_filter_eq_find? {α : Type} (p : α → Bool) (l : List α) :
    (l.filter p).head? = l.find? p := by
  induction l with
  | nil => rfl
  | cons x xs ih => by_cases h : p x <;> simp [List.filter_cons, List.find?, h, ih]

theorem mem_cleanupChunks_props {t piece : List Char} (hp : piece ∈ cleanupChunks t) :
    piece ≠ [] ∧ stripChars piece = piece ∧ '\n' ∉ piece := by
  unfold cleanupChunks at hp
  have hmem := List.mem_filter.mp hp
  have hne : piece ≠ [] := by
    intro he
    rw [he] at hmem
    simp at hmem
  obtain ⟨L, hL, hpL⟩ := List.mem_flatten.mp hmem.1
  simp only [List.map_map, List.mem_map, Function.comp] at hL
  obtain ⟨line, hline, hLdef⟩ := hL
  rw [← hLdef] at hpL
  obtain ⟨phrase, hphrase, hpdef⟩ := List.mem_map.mp hpL
  refine ⟨hne, ?_, ?_⟩
  · rw [← hpdef, stripChars_idem]
  · intro hnl
    apply newline_not_mem_splitlinesChars hline
    exact mem_of_mem_stripChars
      (subset_of_mem_splitOnTwoSpaces hphrase (mem_of_mem_stripChars (hpdef ▸ hnl)))

theorem cleanupChunks_eq_spec (t : List Char) :
    cleanupChunks t = ((splitlinesChars t).map spec_line_fragments).flatten := by
  unfold cleanupChunks spec_line_fragments
  rw [List.map_map, filter_flatten_comm, List.map_map]
  rfl

theorem splitlinesChars_joinWithChar {parts : List (List Char)}
    (h : ∀ x ∈ parts, x ≠ [] ∧ '\n' ∉ x) :
    splitlinesChars (joinWithChar '\n' parts) = parts := by
  cases hc : parts with
  | nil => rfl
  | cons q qs =>
    have hjoin := @joinWithChar_ne_nil_getLast '\n' (q :: qs) (by simp)
      (fun x hx => h x (hc ▸ hx))
    unfold splitlinesChars
    rw [if_neg hjoin.1, if_neg (by simpa using hjoin.2)]
    exact splitOnChar_joinWithChar (by simp) (fun x hx => (h x (hc ▸ hx)).2)

/-! ### Claim theorems -/

/-- C1: for every input text and version string, if the remote completion
call fails (`none`: missing credential, network error, zero candidates — all
caught inside `call_copilot_api`) or returns an empty response, then
`extract_instructions_from_html` returns exactly
`generate_markdown_template` applied to the extracted clean text and the
version string.  No exception can propagate: the model is a total function
by construction. -/
theorem C1_remote_failure_falls_back (parse api : String → Option String)
    (html_content version : String)
    (h : api (prompt_for parse html_content version) = none ∨
      api (prompt_for parse html_content version) = some "") :
    extract_instructions_from_html parse api html_content version =
      generate_markdown_template (extract_text_from_html parse html_content) version := by
  unfold extract_instructions_from_html
  rcases h with h | h <;> rw [h]
  rfl

theorem C1_remote_failure_falls_back_witness :
    extract_instructions_from_html (fun s => some s) (fun _ => none) "<p>x</p>" "1.0" =
      generate_markdown_template (extract_text_from_html (fun s => some s) "<p>x</p>") "1.0" :=
  C1_remote_failure_falls_back (fun s => some s) (fun _ => none) "<p>x</p>" "1.0" (Or.inl rfl)

/-- C2: the outputs of `process_pages_directory` are exactly one per
successfully read input file — their number equals the number of inputs
whose read succeeded — and processing one file is independent of the
outcome on the file before it: a failed read contributes nothing and the
rest of the batch is still processed. -/
theorem C2_one_output_per_successful_read (parse api : String → Option String)
    (output_dir : String) (files : List InputFile) :
    (process_pages_directory parse api output_dir files).length =
      (files.filter (fun f => f.content.isSome)).length ∧
    ∀ f rest, process_pages_directory parse api output_dir (f :: rest) =
      (processOneFile parse api output_dir f).toList ++
        process_pages_directory parse api output_dir rest := by
  constructor
  · induction files with
    | nil => rfl
    | cons f rest ih =>
      unfold process_pages_directory at ih ⊢
      rw [List.filterMap_cons, List.filter_cons]
      cases hf : f.content with
      | none => simp [processOneFile, hf, ih]
      | some html => simp [processOneFile, hf, ih]
  · intro f rest
    unfold process_pages_directory
    rw [List.filterMap_cons]
    cases hf : processOneFile parse api output_dir f <;> simp

/-- C3: `extract_text_from_html` is total (it is a Lean function, and its
error branch is explicit), and on any parse error — the BeautifulSoup
oracle returning `none` — it returns the original input string unchanged. -/
theorem C3_parse_error_returns_input (parse : String → Option String)
    (html_content : String) (h : parse html_content = none) :
    extract_text_from_html parse html_content = html_content := by
  unfold extract_text_from_html
  rw [h]

theorem C3_parse_error_returns_input_witness :
    extract_text_from_html (fun _ => none) "<html <p malformed" = "<html <p malformed" :=
  C3_parse_error_returns_input (fun _ => none) "<html <p malformed" rfl

/-- C4 (amended): `generate_markdown_template` selects as title the first
line whose whitespace-stripped form is non-empty and longer than 10
characters (the raw line itself becomes the title), defaulting to the fixed
literal `"Instructions"`, and emits the fixed-structure markdown skeleton
`render_template` (title, version line, placeholder Prerequisites section,
three numbered placeholder steps, fixed warning note, two placeholder Key
Concepts entries, trailing generated-content disclaimer). -/
theorem C4_template_structure (text_content version : String) :
    generate_markdown_template text_content version =
      render_template (spec_title text_content) version := by
  have hmatch : ∀ (L : List (List Char)) (d : List Char),
      (match L with | [] => d | l :: _ => l) = (L.head?).getD d := by
    intro L d
    cases L <;> rfl
  show render_template
      (String.mk (match
        List.filter (fun l => !(stripChars l).isEmpty && decide (10 < (stripChars l).length))
          (splitOnChar '\n' text_content.data) with
        | [] => "Instructions".data
        | l :: _ => l)) version =
    render_template (spec_title text_content) version
  rw [hmatch]
  unfold spec_title
  rw [head?_filter_eq_find?]

set_option maxRecDepth 10000

/-- C4 counterexample to the claim as stated: in
`"abcd        \nxxxxxxxxxxxx"` the first line is non-blank and is longer
than 10 characters (12 characters), so per the claim it should become the
title; the code instead skips it (its stripped form has only 4 characters)
and titles the document with the second line. -/
theorem C4_counterexample :
    claimed_title "abcd        \nxxxxxxxxxxxx" = "abcd        " ∧
    (!(stripChars "abcd        ".data).isEmpty && decide (10 < "abcd        ".length)) = true ∧
    generate_markdown_template "abcd        \nxxxxxxxxxxxx" "1.0" =
      render_template "xxxxxxxxxxxx" "1.0" ∧
    render_template "xxxxxxxxxxxx" "1.0" ≠ render_template "abcd        " "1.0" :=
  ⟨by decide, by decide, by decide, by decide⟩

/-- C5: `generate_markdown_template` is a pure, deterministic function of
its text and version arguments: equal inputs give identical output.  It is
total and, unlike `extract_instructions_from_html`, takes no external
oracle at all — in the model this is visible in its type. -/
theorem C5_template_deterministic (t v t2 v2 : String) (ht : t = t2) (hv : v = v2) :
    generate_markdown_template t v = generate_markdown_template t2 v2 := by
  rw [ht, hv]

theorem C5_template_deterministic_witness :
    generate_markdown_template "some text" "1.0" = generate_markdown_template "some text" "1.0" :=
  C5_template_deterministic "some text" "1.0" "some text" "1.0" rfl rfl

/-- C6 (amended): the version recorded by `process_pages_directory` is
determined by the FIRST line containing `<!-- Version:`: when that line is
exactly `<!-- Version: 3.2.1 -->` the version is `"3.2.1"` (marker value
with surrounding whitespace stripped), and when no line contains the
marker the version defaults to `"N/A"`. -/
theorem C6_version_extraction (html_content : String) :
    ((splitlinesChars html_content.data).find? (fun line => containsPat versionMarker line) =
        some ("<!-- Version: 3.2.1 -->".data) →
      extractVersion html_content = "3.2.1") ∧
    ((splitlinesChars html_content.data).find? (fun line => containsPat versionMarker line) =
        none →
      extractVersion html_content = "N/A") := by
  constructor <;> intro h <;> unfold extractVersion <;> rw [h]
  · rfl

theorem C6_version_extraction_witness :
    extractVersion "hello\n<!-- Version: 3.2.1 -->\nbye" = "3.2.1" ∧
    extractVersion "a plain file" = "N/A" :=
  ⟨(C6_version_extraction "hello\n<!-- Version: 3.2.1 -->\nbye").1 (by decide),
    (C6_version_extraction "a plain file").2 (by decide)⟩

/-- C6 counterexample to the claim as stated: this input contains a line
with the marker `<!-- Version: 3.2.1 -->`, yet the recorded version is
`"9.9"`, because an earlier line also contains `<!-- Version:` and the code
takes the first such line. -/
theorem C6_counterexample :
    (splitlinesChars ("<!-- Version: 9.9 -->\n<!-- Version: 3.2.1 -->").data).any
        (fun line => containsPat ("<!-- Version: 3.2.1 -->".data) line) = true ∧
    extractVersion "<!-- Version: 9.9 -->\n<!-- Version: 3.2.1 -->" = "9.9" ∧
    extractVersion "<!-- Version: 9.9 -->\n<!-- Version: 3.2.1 -->" ≠ "3.2.1" :=
  ⟨by decide, by decide, by decide⟩

/-- C7: when the HTML parse succeeds with visible text `t` (script and
style elements having been decomposed by the parser, per the oracle's
contract), `extract_text_from_html` returns exactly the spec's clean-up of
`t`: each line stripped, split on double-space sequences, each fragment
stripped, empty fragments discarded, and the fragments joined with single
newline separators. -/
theorem C7_cleanup_matches_spec (parse : String → Option String)
    (html_content t : String) (h : parse html_content = some t) :
    extract_text_from_html parse html_content = String.mk (spec_clean_text t.data) := by
  unfold extract_text_from_html
  rw [h]
  unfold spec_clean_text
  exact congrArg (fun l => String.mk (joinWithChar '\n' l)) (cleanupChunks_eq_spec t.data)

theorem C7_cleanup_matches_spec_witness :
    extract_text_from_html (fun _ => some "hello   world  \n\n ok ") "<x>" =
      String.mk (spec_clean_text ("hello   world  \n\n ok ").data) :=
  C7_cleanup_matches_spec (fun _ => some "hello   world  \n\n ok ") "<x>"
    "hello   world  \n\n ok " rfl

/-- C8: the prompt `extract_instructions_from_html` sends to the remote
service embeds the extracted text truncated to at most 1,000,000
characters: the embedded preview is a prefix of the extracted clean text
and its length is at most 1,000,000. -/
theorem C8_prompt_truncation (parse : String → Option String)
    (html_content version : String) :
    prompt_for parse html_content version =
      build_prompt version (pyTake (extract_text_from_html parse html_content) 1000000) ∧
    (pyTake (extract_text_from_html parse html_content) 1000000).length ≤ 1000000 ∧
    ∃ rest, (extract_text_from_html parse html_content).data =
      (pyTake (extract_text_from_html parse html_content) 1000000).data ++ rest := by
  refine ⟨rfl, ?_, ?_⟩
  · show ((extract_text_from_html parse html_content).data.take 1000000).length ≤ 1000000
    simp [List.length_take]
  · exact ⟨(extract_text_from_html parse html_content).data.drop 1000000,
      (List.take_append_drop _ _).symm⟩

/-- C9: a successfully read input file with stem `s` produces exactly one
output, written to `<output_dir>/<s>_instructions.md`, whose contents are
the generated instruction document for the file's HTML and extracted
version.  (The UTF-8 encoding and the overwrite-on-existing behaviour of
`open(..., "w")` are I/O facets of the Output Writer oracle and are not
part of the shallow model.) -/
theorem C9_output_path (parse api : String → Option String) (output_dir : String)
    (f : InputFile) (html_content : String) (h : f.content = some html_content) :
    processOneFile parse api output_dir f =
      some (output_dir ++ "/" ++ f.stem ++ "_instructions.md",
        extract_instructions_from_html parse api html_content
          (extractVersion html_content)) := by
  unfold processOneFile
  rw [h]

theorem C9_output_path_witness :
    processOneFile (fun s => some s) (fun _ => none) "instructions"
        ⟨"page", some "<p>hi</p>"⟩ =
      some ("instructions" ++ "/" ++ "page" ++ "_instructions.md",
        extract_instructions_from_html (fun s => some s) (fun _ => none) "<p>hi</p>"
          (extractVersion "<p>hi</p>")) :=
  C9_output_path (fun s => some s) (fun _ => none) "instructions"
    ⟨"page", some "<p>hi</p>"⟩ "<p>hi</p>" rfl

/-- C10: whenever the HTML parse succeeds, every line of the string
returned by `extract_text_from_html` is non-empty and has no leading or
trailing whitespace (stripping it changes nothing). -/
theorem C10_lines_nonempty_trimmed (parse : String → Option String)
    (html_content t : String) (h : parse html_content = some t) :
    ∀ line ∈ splitlinesChars (extract_text_from_html parse html_content).data,
      line ≠ [] ∧ stripChars line = line := by
  intro line hline
  unfold extract_text_from_html at hline
  rw [h] at hline
  have hdata : (String.mk (joinWithChar '\n' (cleanupChunks t.data))).data =
      joinWithChar '\n' (cleanupChunks t.data) := rfl
  rw [hdata, splitlinesChars_joinWithChar (fun x hx =>
    ⟨(mem_cleanupChunks_props hx).1, (mem_cleanupChunks_props hx).2.2⟩)] at hline
  exact ⟨(mem_cleanupChunks_props hline).1, (mem_cleanupChunks_props hline).2.1⟩

theorem C10_lines_nonempty_trimmed_witness :
    "hello".data ≠ [] ∧ stripChars "hello".data = "hello".data :=
  C10_lines_nonempty_trimmed (fun _ => some "hello   world  \n\n ok ") "<x>"
    "hello   world  \n\n ok " rfl "hello".data (by decide)

end ExtractInstructions
